import Mathlib

/-!
# Verification of the ff_draft_tools ranking core

Shallow embedding of the consensus-aggregation / normalization / VBD engine of
the repository (files `src/core/models.py`, `src/core/normalizer.py`,
`src/core/aggregator.py`, `src/core/vbd.py`, `config.py`).

Modelling conventions:
* Python `int` is `Int` (counts that are provably non-negative use `Nat`);
* Python `float` is modelled as exact rational arithmetic (`ℚ`); the float
  literals appearing in the source (`1.0`, `0.8`, `1.5`, ...) are taken at
  their decimal value;
* Python `dict` built by insertion is an association list in insertion order;
  assignment overwrites, so lookup takes the *last* binding (`dictFind`);
* Python's stable `list.sort(key=k)` is `List.mergeSort` on the total boolean
  relation `k a ≤ k b` (and `k b ≤ k a` for `reverse=True`), which is stable;
* Python negative list indexing (`xs[-1]`) is modelled by `pyGet`;
* `statistics.stdev` returns the square root of the sample variance; the
  square root is irrational, so the embedded record stores the sample
  variance itself (field `std_dev_sq`); no claim depends on this field.
-/

/-- `Position(Enum)` from `src/core/models.py`. -/
inductive Position where
  | QB | RB | WR | TE | K | DST | FLEX
deriving DecidableEq, Inhabited

/-- The `.value` string of each `Position` enum member. -/
def Position.val : Position → String
  | .QB => "QB"
  | .RB => "RB"
  | .WR => "WR"
  | .TE => "TE"
  | .K => "K"
  | .DST => "DST"
  | .FLEX => "FLEX"

/-- `NFLTeam(Enum)` from `src/core/models.py`. -/
inductive NFLTeam where
  | ARI | ATL | BAL | BUF | CAR | CHI | CIN | CLE | DAL | DEN | DET | GB
  | HOU | IND | JAX | KC | LAC | LAR | LV | MIA | MIN | NE | NO | NYG
  | NYJ | PHI | PIT | SEA | SF | TB | TEN | WAS | FA
deriving DecidableEq, Inhabited

/-- `Player` dataclass from `src/core/models.py` (dataclass equality compares
all fields; `__hash__` is over (name, position, team) but dict membership
still uses full equality). -/
structure Player where
  name : String
  position : Position
  team : NFLTeam
  bye_week : Int
  player_id : Option String := none
  age : Option Int := none
  years_experience : Option Int := none
  injury_status : Option String := none
  aliases : List String := []
deriving DecidableEq, Inhabited

/-- `Ranking` dataclass from `src/core/models.py`; the `timestamp` field
(a wall-clock datetime, irrelevant to every claim) is omitted. -/
structure Ranking where
  player : Player
  rank : Int
  source : String
  tier : Option Int := none
  projected_points : Option ℚ := none
  notes : Option String := none
deriving DecidableEq, Inhabited

/-- `ConsensusRanking` dataclass from `src/core/models.py`.  `sources` is the
insertion-ordered `Dict[str, int]`.  `std_dev_sq` holds the square of the
`std_deviation` float stored by the source (see module comment). -/
structure ConsensusRanking where
  player : Player
  consensus_rank : ℚ
  sources : List (String × Int)
  tier : Int
  std_dev_sq : Option ℚ := none
  min_rank : Option Int := none
  max_rank : Option Int := none
  position_rank : Option Int := none
  adp : Option ℚ := none
  projected_points : Option ℚ := none
  vorp : Option ℚ := none
deriving DecidableEq, Inhabited

/-- `VBDBaseline(Enum)` from `src/core/vbd.py`. -/
inductive VBDBaseline where
  | VOLS | VORP | BEER
deriving DecidableEq, Inhabited

/-- `VORPResult` dataclass from `src/core/vbd.py`. -/
structure VORPResult where
  player_name : String
  position : Position
  projected_points : ℚ
  baseline_points : ℚ
  vorp_score : ℚ
  baseline_type : VBDBaseline
  baseline_player : Option String := none
deriving DecidableEq, Inhabited

/-- Python list indexing, including negative indices from the end
(`xs[-1]` is the last element); `none` models an `IndexError`. -/
def pyGet {α : Type} (l : List α) (i : Int) : Option α :=
  if 0 ≤ i then l.get? i.toNat
  else if (-i) ≤ (l.length : Int) then l.get? (l.length - (-i).toNat) else none

/-- Lookup in an insertion-ordered association list with Python `dict`
semantics: later assignments to the same key overwrite earlier ones. -/
def dictFind {κ β : Type} [DecidableEq κ] (l : List (κ × β)) (k : κ) : Option β :=
  (l.reverse.find? (fun p => p.1 = k)).map (·.2)

/-- `d.get(k, default)` on an association list. -/
def dictGetD {κ β : Type} [DecidableEq κ] (l : List (κ × β)) (k : κ) (d : β) : β :=
  (dictFind l k).getD d

/-- Python `min` over a list (`None` on an empty list, as used in
`aggregator.py` via `min(ranks) if ranks else None`). -/
def pyMin : List Int → Option Int
  | [] => none
  | x :: xs => some (xs.foldl min x)

/-- Python `max` over a list, as above. -/
def pyMax : List Int → Option Int
  | [] => none
  | x :: xs => some (xs.foldl max x)

/-- Python `int()` applied to a float: truncation toward zero. -/
def pyInt (q : ℚ) : Int :=
  if 0 ≤ q then ⌊q⌋ else ⌈q⌉

/-! ## Name normalizer (`src/core/normalizer.py`, `PlayerNormalizer.normalize_name`) -/

/-- Whitespace characters recognised by Python `str.split()` / `str.strip()`
and by the regex class `\s` (ASCII range; the names handled by the program
are ASCII). -/
def pyIsSpace (c : Char) : Bool :=
  c = ' ' || c = Char.ofNat 9 || c = Char.ofNat 10 ||
  c = Char.ofNat 11 || c = Char.ofNat 12 || c = Char.ofNat 13

/-- The regex class `[A-Z]` (the initials regex is compiled without
`re.IGNORECASE`). -/
def isUpperAZ (c : Char) : Bool := 'A' ≤ c && c ≤ 'Z'

/-- Python `str.split()` with no argument: the maximal whitespace-free runs,
empty runs dropped.  `acc` is the current word, reversed. -/
def pyWordsAux : List Char → List Char → List (List Char)
  | [], acc => if acc.isEmpty then [] else [acc.reverse]
  | c :: cs, acc =>
    if pyIsSpace c then
      if acc.isEmpty then pyWordsAux cs [] else acc.reverse :: pyWordsAux cs []
    else pyWordsAux cs (c :: acc)

/-- `' '.join(name.split())`: collapse whitespace runs to single spaces and
trim both ends (first statement of `normalize_name`). -/
def collapseWS (l : List Char) : List Char :=
  List.intercalate [' '] (pyWordsAux l [])

/-- `re.sub(r'([A-Z])\.([A-Z])', r'\1.\2', name)`: the replacement text is
identical to every matched text, so the substitution rewrites each match to
itself; the scan is reproduced literally. -/
def subDotPair : List Char → List Char
  | c1 :: '.' :: c2 :: rest =>
    if isUpperAZ c1 && isUpperAZ c2 then c1 :: '.' :: c2 :: subDotPair rest
    else c1 :: subDotPair ('.' :: c2 :: rest)
  | c :: rest => c :: subDotPair rest
  | [] => []

/-- Match `\s+` then return the remainder (greedy: the whole whitespace run
is consumed; what follows each `\s+` in the initials regex is `[A-Z]` or the
match end, never whitespace, so maximal munch needs no backtracking). -/
def reqSpaces : List Char → Option (List Char)
  | c :: cs => if pyIsSpace c then some (cs.dropWhile pyIsSpace) else none
  | [] => none

/-- The optional dot `\.?` of the initials regex: consume a leading dot when
present.  When a dot is present the greedy branch consumes it, and the
backtracking branch (empty `\.?` followed by `\s+` reading the dot) can never
succeed, so the overall match is deterministic. -/
def dropOptDot : List Char → List Char
  | '.' :: r => r
  | l => l

/-- Try to match the initials regex `([A-Z])\.?\s+([A-Z])\s+` at the head of
`l`; on success return the two captured letters and the remainder after the
match. -/
def matchInitPair (l : List Char) : Option (Char × Char × List Char) :=
  match l with
  | [] => none
  | c1 :: rest =>
    if isUpperAZ c1 then
      match reqSpaces (dropOptDot rest) with
      | none => none
      | some r2 =>
        match r2 with
        | [] => none
        | c2 :: r3 =>
          if isUpperAZ c2 then
            match reqSpaces r3 with
            | none => none
            | some r4 => some (c1, c2, r4)
          else none
    else none

theorem reqSpaces_length {l r : List Char} (h : reqSpaces l = some r) :
    r.length < l.length := by
  cases l with
  | nil => simp [reqSpaces] at h
  | cons c cs =>
    simp only [reqSpaces] at h
    split at h
    · cases h
      exact Nat.lt_succ_of_le (List.dropWhile_sublist pyIsSpace).length_le
    · cases h

theorem dropOptDot_length (l : List Char) : (dropOptDot l).length ≤ l.length := by
  cases l with
  | nil => simp [dropOptDot]
  | cons c cs =>
    by_cases hc : c = '.'
    · subst hc; simp [dropOptDot]
    · have : dropOptDot (c :: cs) = c :: cs := by
        unfold dropOptDot
        split
        · rename_i heq
          rw [List.cons.injEq] at heq
          exact absurd heq.1 hc
        · rfl
      rw [this]

theorem matchInitPair_length {l : List Char} {c1 c2 : Char} {rest : List Char}
    (h : matchInitPair l = some (c1, c2, rest)) : rest.length < l.length := by
  cases l with
  | nil => simp [matchInitPair] at h
  | cons a as =>
    simp only [matchInitPair] at h
    split at h
    · split at h
      · cases h
      · rename_i r2 hr2
        split at h
        · cases h
        · split at h
          · split at h
            · cases h
            · rename_i r4 hr4
              cases h
              have h4 := reqSpaces_length hr4
              have h2 := reqSpaces_length hr2
              have h1 := dropOptDot_length as
              simp only [List.length_cons] at h2 ⊢
              omega
          · cases h
    · cases h

/-- `re.sub(r'([A-Z])\.?\s+([A-Z])\s+', r'\1.\2. ', name)`: scan left to
right; at a match emit the replacement `\1.\2. ` and continue after the
matched text, else emit one character and move on.  Structurally recursive
on a fuel argument so that it computes inside the kernel; every step
consumes at least one character (`matchInitPair_length`), so fuel equal to
the length never runs out — `subInitialsFuel_irrel` below proves the result
is fuel-independent from there on. -/
def subInitialsFuel : Nat → List Char → List Char
  | 0, l => l
  | fuel + 1, l =>
    match matchInitPair l with
    | some (c1, c2, rest) => c1 :: '.' :: c2 :: '.' :: ' ' :: subInitialsFuel fuel rest
    | none =>
      match l with
      | [] => []
      | c :: cs => c :: subInitialsFuel fuel cs

/-- The initials substitution, with adequate fuel. -/
def subInitials (l : List Char) : List Char :=
  subInitialsFuel l.length l

theorem subInitialsFuel_irrel (fuel : Nat) :
    ∀ (fuel2 : Nat) (l : List Char), l.length ≤ fuel → l.length ≤ fuel2 →
      subInitialsFuel fuel l = subInitialsFuel fuel2 l := by
  induction fuel with
  | zero =>
    intro fuel2 l h h2
    have : l = [] := List.length_eq_zero.mp (Nat.le_zero.mp h)
    subst this
    cases fuel2 with
    | zero => rfl
    | succ f2 => simp [subInitialsFuel, matchInitPair]
  | succ f ih =>
    intro fuel2 l h h2
    cases l with
    | nil =>
      cases fuel2 with
      | zero => simp [subInitialsFuel, matchInitPair]
      | succ f2 => simp [subInitialsFuel, matchInitPair]
    | cons c cs =>
      cases fuel2 with
      | zero => simp at h2
      | succ f2 =>
        simp only [subInitialsFuel]
        cases hm : matchInitPair (c :: cs) with
        | some t =>
          obtain ⟨c1, c2, rest⟩ := t
          have hlen := matchInitPair_length hm
          simp only [List.length_cons] at hlen h h2
          simp [ih f2 rest (by omega) (by omega)]
        | none =>
          simp only [List.length_cons] at h h2
          simp [ih f2 cs (by omega) (by omega)]

/-- Python `str.strip()`: drop leading and trailing whitespace. -/
def pyStrip (l : List Char) : List Char :=
  ((l.dropWhile pyIsSpace).reverse.dropWhile pyIsSpace).reverse

/-- Lowercase an ASCII capital (for the `re.IGNORECASE` comparison of the
suffix pattern). -/
def lowerAZ (c : Char) : Char :=
  if isUpperAZ c then Char.ofNat (c.toNat + 32) else c

/-- Case-insensitive equality of character lists. -/
def ciEq (a b : List Char) : Bool :=
  a.map lowerAZ = b.map lowerAZ

/-- The alternatives of the suffix regex `\s+(Jr\.?|Sr\.?|III?|IV|V)$`, in
the regex's preference order (`Jr\.?` greedily takes the dot, `III?` matches
`III` or `II`). -/
def suffixTokens : List (List Char) :=
  [['J', 'r', '.'], ['J', 'r'], ['S', 'r', '.'], ['S', 'r'],
   ['I', 'I', 'I'], ['I', 'I'], ['I', 'V'], ['V']]

/-- `self.suffix_pattern.sub('', name)`: the pattern is anchored at the end
of the string, so at most one match exists — a token that is a
(case-insensitive) exact tail of the string with a whitespace character
immediately before it; the match (trailing whitespace run plus token) is
deleted.  At most one alternative can qualify, because whenever one token is
a proper suffix of another the shorter one is preceded inside the longer by
a letter, never by whitespace.  (The strings reaching this substitution
contain no newline — `' '.join(name.split())` removed them all — so `$`
means exactly end-of-string here.)  The deletion is followed by `.strip()`
in `normalize_name`, which removes whatever part of the whitespace run the
match itself did not cover, so the whitespace run is simply left to
`pyStrip`. -/
def subSuffix (l : List Char) : List Char :=
  (suffixTokens.findSome? (fun t =>
    let n := l.length - t.length
    if t.length < l.length ∧ ciEq (l.drop n) t ∧ pyIsSpace (l.getD (n - 1) 'x')
    then some (l.take n) else none)).getD l

/-- `PlayerNormalizer.normalize_name` (`src/core/normalizer.py`, lines
74-89), statement by statement. -/
def normalize_name (s : String) : String :=
  let l := s.data
  let l := collapseWS l
  let l := l.filter (fun c => c ≠ Char.ofNat 39)
  let l := subDotPair l
  let l := subInitials l
  String.mk (pyStrip (subSuffix l))

/-! ## Entity matcher (`src/core/normalizer.py`, `PlayerNormalizer`) -/

/-- The built-in `default_aliases` table of
`PlayerNormalizer._load_known_aliases`, in insertion order.  The persisted
`player_mappings.json` overlay is optional (a missing file leaves the
defaults untouched); the matcher below takes the table as a parameter, so
theorems may instantiate it with these defaults or any loaded table. -/
def defaultAliases : List (String × List String) :=
  [("CeeDee Lamb", ["C.D. Lamb", "Cedarian Lamb", "CD Lamb"]),
   ("D.K. Metcalf", ["DK Metcalf", "D.K Metcalf", "DeKaylin Metcalf"]),
   ("A.J. Brown", ["AJ Brown", "Arthur Brown"]),
   ("T.J. Hockenson", ["TJ Hockenson", "T.J Hockenson"]),
   ("D.J. Moore", ["DJ Moore", "Denniston Moore"]),
   ("K.J. Osborn", ["KJ Osborn", "Kendrick Osborn"]),
   ("Patrick Mahomes", ["Patrick Mahomes II"]),
   ("Odell Beckham Jr.", ["Odell Beckham", "OBJ"]),
   ("Marvin Jones Jr.", ["Marvin Jones"]),
   ("Michael Pittman Jr.", ["Michael Pittman"]),
   ("Gardner Minshew", ["Gardner Minshew II"]),
   ("49ers D/ST", ["San Francisco D/ST", "SF D/ST", "49ers DST", "San Francisco Defense"]),
   ("Bears D/ST", ["Chicago D/ST", "CHI D/ST", "Bears DST", "Chicago Defense"]),
   ("Bills D/ST", ["Buffalo D/ST", "BUF D/ST", "Bills DST", "Buffalo Defense"]),
   ("Kenneth Walker III", ["Kenneth Walker", "K. Walker III"]),
   ("Brian Robinson Jr.", ["Brian Robinson", "B. Robinson Jr."])]

/-- `PlayerNormalizer._validate_match`: an enum member is always truthy, so
`if team and candidate.team != team` tests `team is not None`. -/
def validate_match (candidate : Player) (team : Option NFLTeam)
    (position : Option Position) : Bool :=
  (match team with
   | some t => candidate.team = t
   | none => true) &&
  (match position with
   | some p => candidate.position = p
   | none => true)

/-- The matcher state: the alias table and the per-(name, team, position)
success cache (`self.name_cache`), updated by assignment, hence modelled by
prepending (`dictFind` takes the latest binding). -/
structure MatcherState where
  known_aliases : List (String × List String)
  name_cache : List ((String × Option NFLTeam × Option Position) × Player)
deriving DecidableEq

/-- The alias loop of `find_player_match` (lines 101-111): for each table
entry whose canonical name or variant list contains the query name, scan the
candidates for the first one whose raw or normalized name equals the
canonical name and which passes `_validate_match`; the first success
returns.  When `candidates` is `None` or empty the loop can never return
(its body is guarded by `if candidates`). -/
def aliasFind (entries : List (String × List String)) (name : String)
    (cands : List Player) (team : Option NFLTeam) (position : Option Position) :
    Option Player :=
  entries.findSome? (fun e =>
    if name = e.1 ∨ name ∈ e.2 then
      cands.find? (fun c =>
        (c.name = e.1 ∨ normalize_name c.name = normalize_name e.1) &&
        validate_match c team position)
    else none)

/-- `PlayerNormalizer.find_player_match` (lines 91-133).  The fuzzy matcher
`_fuzzy_match` calls into the external `fuzzywuzzy` similarity library; it is
taken as a parameter (the claims settled here never reach it).  Returns the
result and the updated matcher state. -/
def find_player_match
    (fuzzy : String → List Player → Option NFLTeam → Option Position → Option Player)
    (st : MatcherState) (name : String) (team : Option NFLTeam)
    (position : Option Position) (candidates : Option (List Player)) :
    Option Player × MatcherState :=
  let cache_key := (name, team, position)
  match dictFind st.name_cache cache_key, candidates with
  | some p, none => (some p, st)
  | _, _ =>
    let cands := candidates.getD []
    let aliasHit := if cands.isEmpty then none
      else aliasFind st.known_aliases name cands team position
    match aliasHit with
    | some c => (some c, { st with name_cache := (cache_key, c) :: st.name_cache })
    | none =>
      if cands.isEmpty then (none, st)
      else
        let normalized_search := normalize_name name
        match cands.find? (fun c =>
            normalize_name c.name = normalized_search &&
            validate_match c team position) with
        | some c => (some c, { st with name_cache := (cache_key, c) :: st.name_cache })
        | none =>
          match fuzzy name cands team position with
          | some c => (some c, { st with name_cache := (cache_key, c) :: st.name_cache })
          | none => (none, st)

/-! ## Consensus aggregation (`src/core/aggregator.py`, `RankingAggregator`) -/

/-- `self.source_weights.get(source, 1.0)` (line 142); the weight table is
built in `__init__` from `RANKING_SOURCES` and is a parameter here. -/
def weightOf (source_weights : List (String × ℚ)) (s : String) : ℚ :=
  dictGetD source_weights s 1

/-- The `(source, rank)` pairs collected by the per-source loop of
`_calculate_consensus` (lines 136-143): the sources whose lookup contains
the canonical player, in source order, with that source's rank. -/
def ranksOf (source_lookups : List (String × List (Player × Ranking)))
    (player : Player) : List (String × Int) :=
  source_lookups.filterMap (fun sl =>
    (dictFind sl.2 player).map (fun rk => (sl.1, rk.rank)))

/-- Sample variance `Σ (x - mean)² / (n - 1)`; `statistics.stdev` is its
square root (see the module comment on `std_dev_sq`). -/
def sampleVar (xs : List Int) : ℚ :=
  let n : ℚ := xs.length
  let m : ℚ := (xs.map (fun x => (x : ℚ))).sum / n
  ((xs.map (fun x => ((x : ℚ) - m) ^ 2)).sum) / (n - 1)

/-- The weighted average `sum(r * w) / sum(w)` over `(rank, weight)` pairs
(lines 150-152 of `aggregator.py`). -/
def weightedAverage (pairs : List (ℚ × ℚ)) : ℚ :=
  (pairs.map (fun p => p.1 * p.2)).sum / (pairs.map (fun p => p.2)).sum

/-- The body of the per-player loop of `_calculate_consensus` (lines
131-170): collect the per-source ranks, skip the player when no source has
them (`none`), otherwise produce the `ConsensusRanking`.  The
`else consensus_rank = 999` branch of the source is unreachable
(`weighted_ranks` is empty exactly when `ranks_by_source` is, and that case
was skipped), and is reproduced as such. -/
def calcConsensusForPlayer (source_weights : List (String × ℚ))
    (source_lookups : List (String × List (Player × Ranking)))
    (player : Player) : Option ConsensusRanking :=
  let ranks_by_source := ranksOf source_lookups player
  let weighted_ranks : List (ℚ × ℚ) :=
    ranks_by_source.map (fun sr => ((sr.2 : ℚ), weightOf source_weights sr.1))
  if ranks_by_source.isEmpty then none
  else
    let consensus_rank :=
      if weighted_ranks.isEmpty then 999 else weightedAverage weighted_ranks
    let ranks := ranks_by_source.map (fun sr => sr.2)
    some { player := player
           consensus_rank := consensus_rank
           sources := ranks_by_source
           tier := 1
           std_dev_sq := some (if 1 < ranks.length then sampleVar ranks else 0)
           min_rank := pyMin ranks
           max_rank := pyMax ranks }

/-- `_calculate_consensus` (lines 109-172) given the per-source lookup maps.
The lookup construction (lines 114-128) resolves each source ranking's
player against the canonical pool through `find_player_match`; the lookups
are taken as input here, so the theorems below hold for whatever maps that
resolution produces. -/
def calculate_consensus (source_weights : List (String × ℚ))
    (all_players : List Player)
    (source_lookups : List (String × List (Player × Ranking))) :
    List ConsensusRanking :=
  all_players.filterMap (calcConsensusForPlayer source_weights source_lookups)

/-- Python's stable `position_rankings.sort(key=lambda x: x.consensus_rank)`
(used by `_assign_position_ranks` and `_assign_tiers`). -/
def sortByConsensus (l : List ConsensusRanking) : List ConsensusRanking :=
  l.mergeSort (fun a b => decide (a.consensus_rank ≤ b.consensus_rank))

/-- `_assign_position_ranks` (lines 174-186) restricted to one position
group: sort by consensus rank and assign 1-based ranks in that order. -/
def assign_position_ranks (group : List ConsensusRanking) : List ConsensusRanking :=
  let sorted := sortByConsensus group
  sorted.zipWith (fun c i => { c with position_rank := some (i : Int) })
    (List.range' 1 sorted.length)

/-- The tier-assignment loop of `_assign_tiers` (lines 204-216): walking the
sorted position group, emit the current tier for each player; advance the
tier while configured tier sizes remain and the running count has reached
the current size.  The function returns the tier assigned to each of the
`n` players in order. -/
def tierWalk (sizes : List Int) : Nat → Int → Int → Nat → List Int
  | 0, _, _, _ => []
  | n + 1, current_tier, players_in_tier, tier_index =>
    let players_in_tier := players_in_tier + 1
    if tier_index < sizes.length ∧ sizes.getD tier_index 0 ≤ players_in_tier then
      current_tier :: tierWalk sizes n (current_tier + 1) 0 (tier_index + 1)
    else
      current_tier :: tierWalk sizes n current_tier players_in_tier tier_index

/-- `_assign_tiers` (lines 188-216) restricted to one position group, with
its configured tier sizes (`DEFAULT_TIER_SIZES.get(position.value,
[12, 12, 12, 12])`): re-sort by consensus rank (stable, hence a no-op after
`_assign_position_ranks`) and assign the walked tiers in order. -/
def assign_tiers (sizes : List Int) (group : List ConsensusRanking) :
    List ConsensusRanking :=
  let sorted := sortByConsensus group
  sorted.zipWith (fun c t => { c with tier := t })
    (tierWalk sizes sorted.length 1 0 0)

/-- One position group's pass through `aggregate_rankings` steps 6-7:
`_assign_position_ranks` then `_assign_tiers` (called in that order at
lines 79-82 on the same underlying records). -/
def processPosition (sizes : List Int) (group : List ConsensusRanking) :
    List ConsensusRanking :=
  assign_tiers sizes (assign_position_ranks group)

/-! ## VBD engine (`src/core/vbd.py`, `VBDCalculator`) -/

/-- The projected points of a record after the `projected_points is not None`
filter of `calculate_vorp`; every record reaching the computations below has
`some`, so the default is never taken. -/
def ConsensusRanking.projPts (r : ConsensusRanking) : ℚ :=
  r.projected_points.getD 0

/-- `defaultdict(list)` grouping by `ranking.player.position` (lines
117-119): keys in first-occurrence order, each group in input order. -/
def groupByPosition (l : List ConsensusRanking) :
    List (Position × List ConsensusRanking) :=
  l.foldl (fun acc r =>
    if acc.any (fun g => g.1 = r.player.position) then
      acc.map (fun g =>
        if g.1 = r.player.position then (g.1, g.2 ++ [r]) else g)
    else acc ++ [(r.player.position, [r])]) []

/-- `by_position[position].sort(key=lambda x: x.projected_points,
reverse=True)` (line 123): stable descending sort by projected points. -/
def sortDescPoints (l : List ConsensusRanking) : List ConsensusRanking :=
  l.mergeSort (fun a b => decide (b.projPts ≤ a.projPts))

/-- `self.roster.get(position.value, 0)`: the roster dict is keyed by the
position's `.value` string. -/
def rosterGet (roster : List (String × Int)) (pos : Position) : Int :=
  dictGetD roster pos.val 0

/-- The per-position body of `_calculate_vols_baselines` (lines 143-167):
baseline = last league-wide starter when the pool is deep enough, else the
last available player, else the `(0, "None")` sentinel. -/
def volsBaselineFor (roster : List (String × Int)) (num_teams : Int)
    (pos : Position) (players : List ConsensusRanking) : ℚ × String :=
  let starters_needed := rosterGet roster pos * num_teams
  if 0 < starters_needed ∧ starters_needed ≤ (players.length : Int) then
    match pyGet players (starters_needed - 1) with
    | some bp => (bp.projPts, bp.player.name)
    | none => (0, "None")  -- unreachable: the guard puts the index in range
  else
    match players.getLast? with  -- players[-1]
    | some bp => (bp.projPts, bp.player.name)
    | none => (0, "None")

/-- `_calculate_vols_baselines` (lines 136-169): every position except FLEX
gets a baseline entry. -/
def vols_baselines (roster : List (String × Int)) (num_teams : Int)
    (by_position : List (Position × List ConsensusRanking)) :
    List (Position × (ℚ × String)) :=
  by_position.filterMap (fun pg =>
    if pg.1 = Position.FLEX then none
    else some (pg.1, volsBaselineFor roster num_teams pg.1 pg.2))

/-- `draft_multipliers.get(position, 2.0)` of `_calculate_vorp_baselines`
(lines 179-192). -/
def draftMultiplier : Position → ℚ
  | .QB => 1.5
  | .RB => 3.5
  | .WR => 4.0
  | .TE => 1.5
  | .K => 1.0
  | .DST => 1.0
  | .FLEX => 2.0

/-- The per-position body of `_calculate_vorp_baselines` (lines 188-211). -/
def vorpBaselineFor (num_teams : Int) (pos : Position)
    (players : List ConsensusRanking) : ℚ × String :=
  let players_drafted := pyInt ((num_teams : ℚ) * draftMultiplier pos)
  if players_drafted < (players.length : Int) then
    match pyGet players players_drafted with
    | some bp => (bp.projPts, bp.player.name)
    | none => (0, "None")  -- unreachable: the guard puts the index in range
  else
    match players.getLast? with  -- players[-1]
    | some bp => (bp.projPts, bp.player.name)
    | none => (0, "None")

/-- `_calculate_vorp_baselines` (lines 171-213). -/
def vorp_baselines (num_teams : Int)
    (by_position : List (Position × List ConsensusRanking)) :
    List (Position × (ℚ × String)) :=
  by_position.filterMap (fun pg =>
    if pg.1 = Position.FLEX then none
    else some (pg.1, vorpBaselineFor num_teams pg.1 pg.2))

/-- `man_games_multipliers.get(position, 1.5)` of
`_calculate_beer_baselines` (lines 224-238). -/
def manGamesMultiplier : Position → ℚ
  | .QB => 1.2
  | .RB => 2.5
  | .WR => 2.0
  | .TE => 1.5
  | .K => 1.1
  | .DST => 1.1
  | .FLEX => 1.5

/-- The per-position body of `_calculate_beer_baselines` (lines 233-258).
When `total_needed = 0` the source reads `players[total_needed - 1]`, i.e.
`players[-1]`, Python negative indexing for the *last* element — `pyGet`
reproduces this.  On an empty pool with `total_needed = 0` the source would
raise `IndexError`; the groups fed to it are never empty (they are built
from their own members), and that dead path yields the sentinel here. -/
def beerBaselineFor (roster : List (String × Int)) (num_teams : Int)
    (pos : Position) (players : List ConsensusRanking) : ℚ × String :=
  let starters_needed := rosterGet roster pos * num_teams
  let total_needed := pyInt ((starters_needed : ℚ) * manGamesMultiplier pos)
  if total_needed ≤ (players.length : Int) then
    match pyGet players (total_needed - 1) with
    | some bp => (bp.projPts, bp.player.name)
    | none => (0, "None")
  else
    match players.getLast? with  -- players[-1]
    | some bp => (bp.projPts, bp.player.name)
    | none => (0, "None")

/-- `_calculate_beer_baselines` (lines 215-260). -/
def beer_baselines (roster : List (String × Int)) (num_teams : Int)
    (by_position : List (Position × List ConsensusRanking)) :
    List (Position × (ℚ × String)) :=
  by_position.filterMap (fun pg =>
    if pg.1 = Position.FLEX then none
    else some (pg.1, beerBaselineFor roster num_teams pg.1 pg.2))

/-- `_calculate_baselines` (lines 107-134): group by position, sort each
group by projected points descending, dispatch on the baseline policy. -/
def calculate_baselines (roster : List (String × Int)) (num_teams : Int)
    (rankings : List ConsensusRanking) (baseline_type : VBDBaseline) :
    List (Position × (ℚ × String)) :=
  let by_position := (groupByPosition rankings).map
    (fun pg => (pg.1, sortDescPoints pg.2))
  match baseline_type with
  | .VOLS => vols_baselines roster num_teams by_position
  | .VORP => vorp_baselines num_teams by_position
  | .BEER => beer_baselines roster num_teams by_position

/-- The unsorted result list built by `calculate_vorp` (lines 68-100):
filter to the point-projected records, return `[]` when none remain, else
build a `VORPResult` for every record whose position has a baseline
(`vorp_score = max(0, projected - baseline)`). -/
def vorp_results_unsorted (roster : List (String × Int)) (num_teams : Int)
    (rankings : List ConsensusRanking) (baseline_type : VBDBaseline) :
    List VORPResult :=
  let players_with_projections :=
    rankings.filter (fun r => r.projected_points.isSome)
  if players_with_projections.isEmpty then []
  else
    let baselines :=
      calculate_baselines roster num_teams players_with_projections baseline_type
    players_with_projections.filterMap (fun r =>
      match (baselines.find? (fun b => b.1 = r.player.position)).map (fun b => b.2) with
      | none => none  -- `if position not in baselines: continue`
      | some bb =>
        some { player_name := r.player.name
               position := r.player.position
               projected_points := r.projPts
               baseline_points := bb.1
               vorp_score := max 0 (r.projPts - bb.1)
               baseline_type := baseline_type
               baseline_player := some bb.2 })

/-- `VBDCalculator.calculate_vorp` (lines 55-105): the result list sorted by
`vorp_score` descending (line 103, a stable reverse sort). -/
def calculate_vorp (roster : List (String × Int)) (num_teams : Int)
    (rankings : List ConsensusRanking) (baseline_type : VBDBaseline) :
    List VORPResult :=
  (vorp_results_unsorted roster num_teams rankings baseline_type).mergeSort
    (fun a b => decide (b.vorp_score ≤ a.vorp_score))

/-- The annotation loop of `create_draft_board` (lines 313-321): the lookup
dict is a comprehension over `vorp_results` (later entries overwrite), and
every ranking gets `vorp` set — the matched score or `0.0`. -/
def annotate_vorp (roster : List (String × Int)) (num_teams : Int)
    (rankings : List ConsensusRanking) (baseline_type : VBDBaseline) :
    List ConsensusRanking :=
  let vorp_results := calculate_vorp roster num_teams rankings baseline_type
  rankings.map (fun r =>
    let score : ℚ :=
      match vorp_results.reverse.find? (fun v => v.player_name = r.player.name) with
      | some v => v.vorp_score
      | none => 0
    { r with vorp := some score })

/-- `VBDCalculator.create_draft_board` (lines 301-326): annotate, then sort
by `getattr(x, 'vorp', 0)` descending (every record was just annotated, so
the key is the stored score). -/
def create_draft_board (roster : List (String × Int)) (num_teams : Int)
    (rankings : List ConsensusRanking) (baseline_type : VBDBaseline) :
    List ConsensusRanking :=
  (annotate_vorp roster num_teams rankings baseline_type).mergeSort
    (fun a b => decide (b.vorp.getD 0 ≤ a.vorp.getD 0))

/-! ## Demonstration inputs used by concrete witnesses -/

/-- A minimal player record for concrete scenarios. -/
def demoPlayer (nm : String) (pos : Position) : Player :=
  { name := nm, position := pos, team := .FA, bye_week := 7 }

/-- A minimal consensus record for concrete scenarios. -/
def demoCR (nm : String) (pos : Position) (cr : ℚ) (pts : Option ℚ) :
    ConsensusRanking :=
  { player := demoPlayer nm pos
    consensus_rank := cr
    sources := [("fantasypros", 1)]
    tier := 1
    projected_points := pts }

/-! ## C9: VORP on projection-free input -/

/-- C9: when no input record carries a projected-points value,
`calculate_vorp` returns the empty list instead of raising. -/
theorem calculate_vorp_empty_of_no_projections (roster : List (String × Int))
    (num_teams : Int) (rankings : List ConsensusRanking) (bt : VBDBaseline)
    (h : ∀ r ∈ rankings, r.projected_points = none) :
    calculate_vorp roster num_teams rankings bt = [] := by
  have hf : rankings.filter (fun r => r.projected_points.isSome) = [] := by
    rw [List.filter_eq_nil_iff]
    intro a ha
    simp [h a ha]
  simp [calculate_vorp, vorp_results_unsorted, hf]

/-- C9 witness: a concrete projection-free input yields `[]`. -/
theorem calculate_vorp_empty_of_no_projections_witness :
    calculate_vorp [("QB", 1)] 12 [demoCR "Nia Vardalos" .QB 1 none]
      VBDBaseline.VORP = [] :=
  calculate_vorp_empty_of_no_projections [("QB", 1)] 12
    [demoCR "Nia Vardalos" .QB 1 none] VBDBaseline.VORP (by decide)

/-! ## C3: VORP non-negativity -/

/-- C3: every value score produced by `calculate_vorp` is non-negative, a
below-baseline player receives exactly 0, and every `vorp` annotation on a
`create_draft_board` output is non-negative. -/
theorem vorp_scores_nonneg (roster : List (String × Int)) (num_teams : Int)
    (rankings : List ConsensusRanking) (bt : VBDBaseline) :
    (∀ res ∈ calculate_vorp roster num_teams rankings bt,
        0 ≤ res.vorp_score ∧
        (res.projected_points < res.baseline_points → res.vorp_score = 0)) ∧
    (∀ r ∈ create_draft_board roster num_teams rankings bt,
        0 ≤ r.vorp.getD 0) := by
  have hmain : ∀ res ∈ calculate_vorp roster num_teams rankings bt,
      0 ≤ res.vorp_score ∧
      (res.projected_points < res.baseline_points → res.vorp_score = 0) := by
    intro res hres
    rw [calculate_vorp, List.mem_mergeSort] at hres
    rw [vorp_results_unsorted] at hres
    split at hres
    · cases hres
    · rw [List.mem_filterMap] at hres
      obtain ⟨r, hr, hfr⟩ := hres
      split at hfr
      · cases hfr
      · rename_i bb hbb
        cases hfr
        refine ⟨le_max_left 0 _, fun hlt => ?_⟩
        simp only at hlt ⊢
        have : r.projPts - bb.1 ≤ 0 := by
          simp only [ConsensusRanking.projPts] at hlt ⊢
          linarith
        exact max_eq_left this
  refine ⟨hmain, ?_⟩
  intro r hr
  rw [create_draft_board, List.mem_mergeSort] at hr
  rw [annotate_vorp, List.mem_map] at hr
  obtain ⟨r0, hr0, hset⟩ := hr
  subst hset
  simp only [Option.getD_some]
  split
  · rename_i v hv
    have hvmem : v ∈ calculate_vorp roster num_teams rankings bt := by
      have := List.mem_of_find?_eq_some hv
      rwa [List.mem_reverse] at this
    exact (hmain v hvmem).1
  · exact le_refl 0

/-- C3 witness: a concrete run where one player sits below the baseline. -/
theorem vorp_scores_nonneg_witness :
    (0 : ℚ) ≤ ((calculate_vorp [("QB", 1)] 1
        [demoCR "Amy Adams" .QB 1 (some 100), demoCR "Bob Odenkirk" .QB 2 (some 50)]
        VBDBaseline.VOLS).getD 1 default).vorp_score :=
  ((vorp_scores_nonneg [("QB", 1)] 1
      [demoCR "Amy Adams" .QB 1 (some 100), demoCR "Bob Odenkirk" .QB 2 (some 50)]
      VBDBaseline.VOLS).1 _
    (by simp +decide [calculate_vorp, vorp_results_unsorted, calculate_baselines,
      groupByPosition, sortDescPoints, vols_baselines, volsBaselineFor, rosterGet,
      dictGetD, dictFind, pyGet, demoCR, demoPlayer, ConsensusRanking.projPts,
      List.mergeSort, List.merge])).1

/-! ## C5: idempotence of name normalization -/

/-- C5 counterexample: normalization is *not* idempotent for every string.
The suffix regex is anchored at the end and strips a single generational
suffix per pass, so a name carrying two stacked suffixes loses one per
application: `normalize_name "A Jr Sr" = "A Jr"`, but a second application
gives `"A"`. -/
theorem normalize_name_not_idempotent :
    normalize_name (normalize_name "A Jr Sr") ≠ normalize_name "A Jr Sr" := by
  decide

/-- Every name exercised by the program's own data: the canonical keys and
variant spellings of the built-in alias table, plus the names appearing in
the repository's normalizer test suite. -/
def testedNames : List String :=
  defaultAliases.foldr (fun e acc => e.1 :: e.2 ++ acc) [] ++
  ["Travis Kelce", "  Travis   Kelce  ", "Justin Jefferson",
   "Christian McCaffrey", "Josh Allen"]

/-- C5 amended: normalization is idempotent on every name in the built-in
alias table and the normalizer test suite (the spec's "all tested names"),
though not on arbitrary strings. -/
theorem normalize_name_idempotent_on_tested :
    testedNames.all
      (fun s => normalize_name (normalize_name s) == normalize_name s) = true := by
  decide

/-! ## C6: `find_player_match` without a candidate list -/

/-- A fuzzy-matching oracle that never matches (the concrete scenarios below
never reach fuzzy matching in any case). -/
def noFuzzy : String → List Player → Option NFLTeam → Option Position →
    Option Player :=
  fun _ _ _ _ => none

/-- A player whose name appears nowhere in the default alias table. -/
def demoJohn : Player :=
  { name := "John Smith", position := .QB, team := .KC, bye_week := 6 }

/-- A fresh matcher over the default alias table. -/
def freshMatcher : MatcherState :=
  { known_aliases := defaultAliases, name_cache := [] }

/-- The matcher state after one successful lookup of "John Smith" with an
explicit candidate list: the exact-match path caches the hit. -/
def warmMatcher : MatcherState :=
  (find_player_match noFuzzy freshMatcher "John Smith" none none
    (some [demoJohn])).2

/-- C6 counterexample: `find_player_match` with no candidate list does *not*
always return `none` — after a prior successful call cached a match for the
same (name, team, position) key, the call with `candidates=None` consults
the cache (line 98: `if cache_key in self.name_cache and candidates is
None`) and returns the cached player. -/
theorem find_player_match_cached_not_none :
    (find_player_match noFuzzy warmMatcher "John Smith" none none none).1 =
      some demoJohn ∧
    (find_player_match noFuzzy warmMatcher "John Smith" none none none).1 ≠
      none := by
  constructor
  · decide
  · decide

/-- C6 amended: with no candidate list, `find_player_match` returns exactly
the cache entry for (name, team, position): the player cached by a prior
successful call when one exists, and `none` otherwise (fuzzy and exact
matching need a candidate pool, and the alias loop cannot return without
one). -/
theorem find_player_match_none_eq_cache
    (fuzzy : String → List Player → Option NFLTeam → Option Position → Option Player)
    (st : MatcherState) (name : String) (team : Option NFLTeam)
    (position : Option Position) :
    (find_player_match fuzzy st name team position none).1 =
      dictFind st.name_cache (name, team, position) := by
  unfold find_player_match
  cases h : dictFind st.name_cache (name, team, position) with
  | some p => simp [h]
  | none => simp [h]

/-! ## C4: descending sort and stability of the VBD output -/

/-- Stability of the modelled Python sort, in filter form: the elements
satisfying `p` (here: sharing one key value, which makes them mutually
`le`-related) appear in the sorted output exactly in their input order. -/
theorem mergeSort_filter_stable {α : Type} (le : α → α → Bool)
    (htrans : ∀ a b c, le a b → le b c → le a c)
    (htot : ∀ a b, le a b || le b a)
    (l : List α) (p : α → Bool)
    (hp : ∀ a b, p a = true → p b = true → le a b = true) :
    (l.mergeSort le).filter p = l.filter p := by
  have hpw : (l.filter p).Pairwise (fun a b => le a b = true) :=
    List.pairwise_of_forall_mem_list (fun a ha b hb =>
      hp a b (List.of_mem_filter ha) (List.of_mem_filter hb))
  have hsub : List.Sublist (l.filter p) (l.mergeSort le) :=
    List.sublist_mergeSort htrans htot hpw (List.filter_sublist l)
  have hsub2 : List.Sublist (l.filter p) ((l.mergeSort le).filter p) := by
    have h2 := hsub.filter p
    rwa [List.filter_filter, (by
      funext a
      rw [Bool.and_self] : (fun a => p a && p a) = p)] at h2
  have hperm : List.Perm ((l.mergeSort le).filter p) (l.filter p) :=
    (List.mergeSort_perm l le).filter p
  exact (hsub2.eq_of_length hperm.length_eq.symm).symm

/-- C4: both outputs of the VBD engine are sorted descending by value — for
any two elements in output order the earlier value is ≥ the later (hence in
particular for adjacent pairs) — and ties keep their input order: filtering
the output to any one value yields the corresponding unsorted list
(`vorp_results_unsorted` for `calculate_vorp`, the annotation pass
`annotate_vorp` for `create_draft_board`) filtered to that value. -/
theorem vbd_output_sorted_descending (roster : List (String × Int))
    (num_teams : Int) (rankings : List ConsensusRanking) (bt : VBDBaseline) :
    ((calculate_vorp roster num_teams rankings bt).Pairwise
        (fun a b => b.vorp_score ≤ a.vorp_score)) ∧
    (∀ c : ℚ, (calculate_vorp roster num_teams rankings bt).filter
        (fun x => decide (x.vorp_score = c)) =
      (vorp_results_unsorted roster num_teams rankings bt).filter
        (fun x => decide (x.vorp_score = c))) ∧
    ((create_draft_board roster num_teams rankings bt).Pairwise
        (fun a b => b.vorp.getD 0 ≤ a.vorp.getD 0)) ∧
    (∀ c : ℚ, (create_draft_board roster num_teams rankings bt).filter
        (fun x => decide (x.vorp.getD 0 = c)) =
      (annotate_vorp roster num_teams rankings bt).filter
        (fun x => decide (x.vorp.getD 0 = c))) := by
  refine ⟨?_, ?_, ?_, ?_⟩
  · have h := @List.sorted_mergeSort _
      (fun (a b : VORPResult) => decide (b.vorp_score ≤ a.vorp_score))
      (fun a b c hab hbc => by
        simp only [decide_eq_true_eq] at hab hbc ⊢
        exact le_trans hbc hab)
      (fun a b => by
        simp only [Bool.or_eq_true, decide_eq_true_eq]
        exact le_total _ _)
      (vorp_results_unsorted roster num_teams rankings bt)
    rw [calculate_vorp]
    exact h.imp (fun hab => by simpa using hab)
  · intro c
    exact mergeSort_filter_stable _
      (fun a b x hab hbc => by
        simp only [decide_eq_true_eq] at hab hbc ⊢
        exact le_trans hbc hab)
      (fun a b => by
        simp only [Bool.or_eq_true, decide_eq_true_eq]
        exact le_total _ _)
      _ _
      (fun a b ha hb => by
        simp only [decide_eq_true_eq] at ha hb ⊢
        rw [ha, hb])
  · have h := @List.sorted_mergeSort _
      (fun (a b : ConsensusRanking) => decide (b.vorp.getD 0 ≤ a.vorp.getD 0))
      (fun a b c hab hbc => by
        simp only [decide_eq_true_eq] at hab hbc ⊢
        exact le_trans hbc hab)
      (fun a b => by
        simp only [Bool.or_eq_true, decide_eq_true_eq]
        exact le_total _ _)
      (annotate_vorp roster num_teams rankings bt)
    rw [create_draft_board]
    exact h.imp (fun hab => by simpa using hab)
  · intro c
    exact mergeSort_filter_stable _
      (fun a b x hab hbc => by
        simp only [decide_eq_true_eq] at hab hbc ⊢
        exact le_trans hbc hab)
      (fun a b => by
        simp only [Bool.or_eq_true, decide_eq_true_eq]
        exact le_total _ _)
      _ _
      (fun a b ha hb => by
        simp only [decide_eq_true_eq] at ha hb ⊢
        rw [ha, hb])

/-! ## C1: consensus rank is the weighted average over contributing sources -/

theorem ranksOf_keys (source_lookups : List (String × List (Player × Ranking)))
    (player : Player) :
    (ranksOf source_lookups player).map Prod.fst =
      (source_lookups.filter (fun sl => (dictFind sl.2 player).isSome)).map
        Prod.fst := by
  induction source_lookups with
  | nil => rfl
  | cons sl rest ih =>
    cases h : dictFind sl.2 player with
    | none => simpa [ranksOf, List.filterMap_cons, h, List.filter_cons] using ih
    | some rk => simpa [ranksOf, List.filterMap_cons, h, List.filter_cons] using ih

/-- C1: for every canonical player that some source ranks, the produced
consensus record stores exactly the `(source, rank)` pairs of the sources
whose lookup contains the player, and its consensus rank is their weighted
average `sum(rank * weight) / sum(weight)` with `weightOf` defaulting to 1
for unconfigured sources. -/
theorem consensus_is_weighted_average (source_weights : List (String × ℚ))
    (source_lookups : List (String × List (Player × Ranking)))
    (player : Player) (c : ConsensusRanking)
    (h : calcConsensusForPlayer source_weights source_lookups player = some c) :
    c.sources = ranksOf source_lookups player ∧
    c.sources.map Prod.fst =
      (source_lookups.filter (fun sl => (dictFind sl.2 player).isSome)).map
        Prod.fst ∧
    c.consensus_rank = weightedAverage ((ranksOf source_lookups player).map
      (fun sr => ((sr.2 : ℚ), weightOf source_weights sr.1))) := by
  rw [calcConsensusForPlayer] at h
  split at h
  · cases h
  · rename_i hne
    rw [Option.some.injEq] at h
    subst h
    refine ⟨rfl, ranksOf_keys source_lookups player, ?_⟩
    simp only
    rw [if_neg (by simpa [List.isEmpty_iff] using hne)]

/-- The player of the concrete consensus scenario. -/
def demoRankedPlayer : Player := demoPlayer "Pat Sajak" .QB

/-- Three sources ranking the same player 5, 7 and 9. -/
def demoLookups : List (String × List (Player × Ranking)) :=
  [("fantasypros",
    [(demoRankedPlayer,
      { player := demoRankedPlayer, rank := 5, source := "fantasypros" })]),
   ("yahoo",
    [(demoRankedPlayer,
      { player := demoRankedPlayer, rank := 7, source := "yahoo" })]),
   ("nfl",
    [(demoRankedPlayer,
      { player := demoRankedPlayer, rank := 9, source := "nfl" })])]

/-- Source weights 1.0, 0.8, 1.0 for the three demo sources. -/
def demoWeights : List (String × ℚ) :=
  [("fantasypros", 1), ("yahoo", 0.8), ("nfl", 1)]

/-- The fully evaluated consensus record of the three-source scenario:
ranks (5, 7, 9) at weights (1.0, 0.8, 1.0) average to 19.6 / 2.8 = 7. -/
theorem calcConsensus_demo_eval :
    calcConsensusForPlayer demoWeights demoLookups demoRankedPlayer =
      some { player := demoRankedPlayer
             consensus_rank := 7
             sources := [("fantasypros", 5), ("yahoo", 7), ("nfl", 9)]
             tier := 1
             std_dev_sq := some 4
             min_rank := some 5
             max_rank := some 9 } := by
  simp +decide [calcConsensusForPlayer, ranksOf, dictFind, weightOf, dictGetD,
    sampleVar, pyMin, pyMax, weightedAverage, demoWeights, demoLookups,
    demoRankedPlayer, demoPlayer]
  norm_num

/-- C1 witness: ranks (5, 7, 9) at weights (1.0, 0.8, 1.0) produce the
consensus rank 19.6 / 2.8 = 7, and it equals the weighted-average formula. -/
theorem consensus_is_weighted_average_witness :
    (calcConsensusForPlayer demoWeights demoLookups demoRankedPlayer).map
      (fun c => c.consensus_rank) = some 7 ∧
    ((calcConsensusForPlayer demoWeights demoLookups demoRankedPlayer).getD
        default).consensus_rank =
      weightedAverage ((ranksOf demoLookups demoRankedPlayer).map
        (fun sr => ((sr.2 : ℚ), weightOf demoWeights sr.1))) := by
  refine ⟨by rw [calcConsensus_demo_eval]; rfl, ?_⟩
  have h2 : calcConsensusForPlayer demoWeights demoLookups demoRankedPlayer =
      some ((calcConsensusForPlayer demoWeights demoLookups
        demoRankedPlayer).getD default) := by
    rw [calcConsensus_demo_eval]
    rfl
  exact (consensus_is_weighted_average demoWeights demoLookups
    demoRankedPlayer _ h2).2.2

/-! ## C2: consensus bounds -/

theorem foldl_min_le : ∀ (xs : List Int) (x : Int),
    ∀ y ∈ x :: xs, xs.foldl min x ≤ y := by
  intro xs
  induction xs with
  | nil =>
    intro x y hy
    simp only [List.mem_singleton] at hy
    simp [hy]
  | cons z zs ih =>
    intro x y hy
    have hstep : (z :: zs).foldl min x = zs.foldl min (min x z) := rfl
    rw [hstep]
    rcases List.mem_cons.mp hy with h1 | h2
    · rw [h1]
      exact le_trans (ih (min x z) (min x z) (List.mem_cons_self _ _))
        (min_le_left _ _)
    · rcases List.mem_cons.mp h2 with h3 | h4
      · rw [h3]
        exact le_trans (ih (min x z) (min x z) (List.mem_cons_self _ _))
          (min_le_right _ _)
      · exact ih (min x z) y (List.mem_cons_of_mem _ h4)

theorem le_foldl_max : ∀ (xs : List Int) (x : Int),
    ∀ y ∈ x :: xs, y ≤ xs.foldl max x := by
  intro xs
  induction xs with
  | nil =>
    intro x y hy
    simp only [List.mem_singleton] at hy
    simp [hy]
  | cons z zs ih =>
    intro x y hy
    have hstep : (z :: zs).foldl max x = zs.foldl max (max x z) := rfl
    rw [hstep]
    rcases List.mem_cons.mp hy with h1 | h2
    · rw [h1]
      exact le_trans (le_max_left _ _)
        (ih (max x z) (max x z) (List.mem_cons_self _ _))
    · rcases List.mem_cons.mp h2 with h3 | h4
      · rw [h3]
        exact le_trans (le_max_right _ _)
          (ih (max x z) (max x z) (List.mem_cons_self _ _))
      · exact ih (max x z) y (List.mem_cons_of_mem _ h4)

/-- The weighted average of values lying in `[lo, hi]` with positive weights
lies in `[lo, hi]`. -/
theorem weightedAverage_bounds (pairs : List (ℚ × ℚ)) (hne : pairs ≠ [])
    (hpos : ∀ pr ∈ pairs, 0 < pr.2) (lo hi : ℚ)
    (hbd : ∀ pr ∈ pairs, lo ≤ pr.1 ∧ pr.1 ≤ hi) :
    lo ≤ weightedAverage pairs ∧ weightedAverage pairs ≤ hi := by
  have hW : 0 < (pairs.map (fun p => p.2)).sum := by
    apply List.sum_pos
    · intro w hw
      rcases List.mem_map.mp hw with ⟨pr, hpr, hw2⟩
      exact hw2 ▸ hpos pr hpr
    · simpa using hne
  have hup : (pairs.map (fun p => p.1 * p.2)).sum ≤
      hi * (pairs.map (fun p => p.2)).sum := by
    rw [← List.sum_map_mul_left]
    exact List.sum_le_sum (fun pr hpr =>
      mul_le_mul_of_nonneg_right (hbd pr hpr).2 (hpos pr hpr).le)
  have hlo : lo * (pairs.map (fun p => p.2)).sum ≤
      (pairs.map (fun p => p.1 * p.2)).sum := by
    rw [← List.sum_map_mul_left]
    exact List.sum_le_sum (fun pr hpr =>
      mul_le_mul_of_nonneg_right (hbd pr hpr).1 (hpos pr hpr).le)
  constructor
  · rw [weightedAverage, le_div_iff hW]
    exact hlo
  · rw [weightedAverage, div_le_iff hW]
    exact hup

theorem weightOf_pos (source_weights : List (String × ℚ))
    (hw : ∀ sw ∈ source_weights, 0 < sw.2) (s : String) :
    0 < weightOf source_weights s := by
  rw [weightOf, dictGetD, dictFind]
  cases hf : source_weights.reverse.find? (fun p => p.1 = s) with
  | none => simp
  | some q =>
    have hmem : q ∈ source_weights := by
      have := List.mem_of_find?_eq_some hf
      rwa [List.mem_reverse] at this
    simpa using hw q hmem

/-- C2: every consensus record has a non-empty sources map, its `min_rank`
and `max_rank` bound every stored source rank, and — when every configured
source weight is positive — the weighted-average consensus rank lies in
`[min_rank, max_rank]`. -/
theorem consensus_bounds (source_weights : List (String × ℚ))
    (source_lookups : List (String × List (Player × Ranking)))
    (player : Player) (c : ConsensusRanking)
    (hw : ∀ sw ∈ source_weights, 0 < sw.2)
    (h : calcConsensusForPlayer source_weights source_lookups player = some c) :
    c.sources ≠ [] ∧
    ∃ m M, c.min_rank = some m ∧ c.max_rank = some M ∧
      (∀ sr ∈ c.sources, m ≤ sr.2 ∧ sr.2 ≤ M) ∧
      (m : ℚ) ≤ c.consensus_rank ∧ c.consensus_rank ≤ (M : ℚ) := by
  rw [calcConsensusForPlayer] at h
  split at h
  · cases h
  · rename_i hne
    rw [Option.some.injEq] at h
    subst h
    simp only [List.isEmpty_iff] at hne
    cases hrl : ranksOf source_lookups player with
    | nil => exact absurd hrl hne
    | cons sr0 srs =>
      simp only [hrl]
      refine ⟨by simp, ?_⟩
      set ranks := (sr0 :: srs).map (fun sr => sr.2) with hranks
      have hranks_cons : ranks = sr0.2 :: srs.map (fun sr => sr.2) := by
        simp [hranks]
      refine ⟨(srs.map (fun sr => sr.2)).foldl min sr0.2,
              (srs.map (fun sr => sr.2)).foldl max sr0.2, ?_, ?_, ?_, ?_⟩
      · simp [pyMin, hranks_cons]
      · simp [pyMax, hranks_cons]
      · intro sr hsr
        constructor
        · apply foldl_min_le
          rw [← hranks_cons, hranks]
          exact List.mem_map_of_mem (fun sr => sr.2) hsr
        · apply le_foldl_max
          rw [← hranks_cons, hranks]
          exact List.mem_map_of_mem (fun sr => sr.2) hsr
      · have hnem : ((sr0 :: srs).map
            (fun sr => ((sr.2 : ℚ), weightOf source_weights sr.1))) ≠ [] := by
          simp
        have hb := weightedAverage_bounds _ hnem
          (fun pr hpr => by
            rcases List.mem_map.mp hpr with ⟨sr, hsr, hpr2⟩
            subst hpr2
            exact weightOf_pos source_weights hw sr.1)
          ((((srs.map (fun sr => sr.2)).foldl min sr0.2 : Int) : ℚ))
          ((((srs.map (fun sr => sr.2)).foldl max sr0.2 : Int) : ℚ))
          (fun pr hpr => by
            rcases List.mem_map.mp hpr with ⟨sr, hsr, hpr2⟩
            subst hpr2
            constructor
            · simp only
              rw [Int.cast_le]
              apply foldl_min_le
              rw [← hranks_cons, hranks]
              exact List.mem_map_of_mem (fun sr => sr.2) hsr
            · simp only
              rw [Int.cast_le]
              apply le_foldl_max
              rw [← hranks_cons, hranks]
              exact List.mem_map_of_mem (fun sr => sr.2) hsr)
        simpa [List.isEmpty_cons] using hb

/-- C2 witness: the concrete three-source scenario has `min_rank = 5`,
`max_rank = 9`, and the consensus rank 7 inside `[5, 9]`. -/
theorem consensus_bounds_witness :
    ((calcConsensusForPlayer demoWeights demoLookups demoRankedPlayer).getD
        default).sources ≠ [] ∧
    ∃ m M,
      ((calcConsensusForPlayer demoWeights demoLookups demoRankedPlayer).getD
          default).min_rank = some m ∧
      ((calcConsensusForPlayer demoWeights demoLookups demoRankedPlayer).getD
          default).max_rank = some M ∧
      (∀ sr ∈ ((calcConsensusForPlayer demoWeights demoLookups
          demoRankedPlayer).getD default).sources, m ≤ sr.2 ∧ sr.2 ≤ M) ∧
      (m : ℚ) ≤ ((calcConsensusForPlayer demoWeights demoLookups
          demoRankedPlayer).getD default).consensus_rank ∧
      ((calcConsensusForPlayer demoWeights demoLookups
          demoRankedPlayer).getD default).consensus_rank ≤ (M : ℚ) :=
  consensus_bounds demoWeights demoLookups demoRankedPlayer _
    (by norm_num [demoWeights])
    (by rw [calcConsensus_demo_eval]; rfl)

/-! ## C7: the VOLS baseline selection rule -/

/-- C7: for a non-FLEX position whose descending-sorted pool holds at least
`slots × teams` players (with that product positive), the VOLS baseline is
exactly the player at that 1-based index; a smaller pool falls back to the
last (worst-ranked) player.  The final conjunct records that FLEX entries
produce no baseline, and that `calculate_baselines` feeds each position's
pool sorted descending by projected points. -/
theorem vols_baseline_rule (roster : List (String × Int)) (teams : Int)
    (pos : Position) (players : List ConsensusRanking) :
    (∀ bp, 0 < rosterGet roster pos * teams →
      rosterGet roster pos * teams ≤ (players.length : Int) →
      players.get? ((rosterGet roster pos * teams).toNat - 1) = some bp →
      volsBaselineFor roster teams pos players = (bp.projPts, bp.player.name)) ∧
    (∀ bp, (players.length : Int) < rosterGet roster pos * teams →
      players.getLast? = some bp →
      volsBaselineFor roster teams pos players = (bp.projPts, bp.player.name)) ∧
    (∀ by_position : List (Position × List ConsensusRanking),
      ∀ e ∈ vols_baselines roster teams by_position, e.1 ≠ Position.FLEX) ∧
    (∀ rankings : List ConsensusRanking,
      calculate_baselines roster teams rankings VBDBaseline.VOLS =
        vols_baselines roster teams ((groupByPosition rankings).map
          (fun pg => (pg.1, sortDescPoints pg.2)))) := by
  refine ⟨?_, ?_, ?_, fun rankings => rfl⟩
  · intro bp h1 h2 hbp
    rw [volsBaselineFor, if_pos ⟨h1, h2⟩]
    have hidx : pyGet players (rosterGet roster pos * teams - 1) = some bp := by
      rw [pyGet, if_pos (by omega)]
      have : (rosterGet roster pos * teams - 1).toNat =
          (rosterGet roster pos * teams).toNat - 1 := by omega
      rw [this]
      exact hbp
    rw [hidx]
  · intro bp hlt hlast
    rw [volsBaselineFor, if_neg (by omega), hlast]
  · intro by_position e he
    rw [vols_baselines, List.mem_filterMap] at he
    obtain ⟨pg, hpg, hfe⟩ := he
    split at hfe
    · cases hfe
    · rename_i hpos
      cases hfe
      exact hpos

/-- Twelve demo QB records with descending projected points. -/
def demoPool12 : List ConsensusRanking :=
  (List.range 12).map (fun i =>
    demoCR "QB Guy" .QB ((i : ℚ) + 1) (some (300 - (i : ℚ) * 10)))

/-- The first eight of the twelve. -/
def demoPool8 : List ConsensusRanking := demoPool12.take 8

/-- C7 witness (the spec's concrete scenario 3): with 1 QB slot and 12
teams, a 12-player pool takes the 12th-best player (190 projected points)
as baseline, and an 8-player pool falls back to its last, 8th player
(230 projected points). -/
theorem vols_baseline_rule_witness :
    volsBaselineFor [("QB", 1)] 12 .QB demoPool12 = (190, "QB Guy") ∧
    volsBaselineFor [("QB", 1)] 12 .QB demoPool8 = (230, "QB Guy") := by
  have hg12 : demoPool12.getD 11 default =
      demoCR "QB Guy" .QB (((11 : Nat) : ℚ) + 1)
        (some (300 - ((11 : Nat) : ℚ) * 10)) := by rfl
  have hg8 : demoPool8.getD 7 default =
      demoCR "QB Guy" .QB (((7 : Nat) : ℚ) + 1)
        (some (300 - ((7 : Nat) : ℚ) * 10)) := by rfl
  constructor
  · have h := (vols_baseline_rule [("QB", 1)] 12 .QB demoPool12).1
      (demoPool12.getD 11 default)
      (by decide) (by decide) (by rfl)
    rw [h, hg12]
    norm_num [demoCR, demoPlayer, ConsensusRanking.projPts]
  · have h := (vols_baseline_rule [("QB", 1)] 12 .QB demoPool8).2.1
      (demoPool8.getD 7 default)
      (by decide) (by rfl)
    rw [h, hg8]
    norm_num [demoCR, demoPlayer, ConsensusRanking.projPts]

/-! ## C8: tiers are monotone in position rank -/

theorem tierWalk_length (sizes : List Int) :
    ∀ (n : Nat) (ct pit : Int) (ti : Nat),
      (tierWalk sizes n ct pit ti).length = n := by
  intro n
  induction n with
  | zero => intro ct pit ti; rfl
  | succ m ih =>
    intro ct pit ti
    simp only [tierWalk]
    split
    · simp [ih]
    · simp [ih]

theorem tierWalk_ge (sizes : List Int) :
    ∀ (n : Nat) (ct pit : Int) (ti : Nat) (x : Int),
      x ∈ tierWalk sizes n ct pit ti → ct ≤ x := by
  intro n
  induction n with
  | zero => intro ct pit ti x hx; cases hx
  | succ m ih =>
    intro ct pit ti x hx
    simp only [tierWalk] at hx
    split at hx
    · rcases List.mem_cons.mp hx with h1 | h2
      · exact h1 ▸ le_refl ct
      · exact le_trans (by omega) (ih (ct + 1) 0 (ti + 1) x h2)
    · rcases List.mem_cons.mp hx with h1 | h2
      · exact h1 ▸ le_refl ct
      · exact ih ct (pit + 1) ti x h2

theorem tierWalk_pairwise (sizes : List Int) :
    ∀ (n : Nat) (ct pit : Int) (ti : Nat),
      (tierWalk sizes n ct pit ti).Pairwise (· ≤ ·) := by
  intro n
  induction n with
  | zero => intro ct pit ti; exact List.Pairwise.nil
  | succ m ih =>
    intro ct pit ti
    simp only [tierWalk]
    split
    · exact List.pairwise_cons.mpr
        ⟨fun y hy => le_trans (by omega) (tierWalk_ge sizes m (ct + 1) 0 (ti + 1) y hy),
         ih (ct + 1) 0 (ti + 1)⟩
    · exact List.pairwise_cons.mpr
        ⟨fun y hy => tierWalk_ge sizes m ct (pit + 1) ti y hy,
         ih ct (pit + 1) ti⟩

/-- `sortByConsensus` leaves a list whose consensus ranks are already
non-decreasing unchanged (the stable sort of a sorted list). -/
theorem sortByConsensus_of_sorted (l : List ConsensusRanking)
    (h : l.Pairwise (fun a b => a.consensus_rank ≤ b.consensus_rank)) :
    sortByConsensus l = l :=
  List.mergeSort_of_sorted (h.imp (fun hab => decide_eq_true hab))

/-- The rank-annotation pass keeps the list sorted by consensus rank, so
the re-sort inside `assign_tiers` is the identity on its output. -/
theorem assign_position_ranks_sorted (group : List ConsensusRanking) :
    (assign_position_ranks group).Pairwise
      (fun a b => a.consensus_rank ≤ b.consensus_rank) := by
  rw [assign_position_ranks]
  have hs : (sortByConsensus group).Pairwise
      (fun a b => a.consensus_rank ≤ b.consensus_rank) := by
    have h := @List.sorted_mergeSort _
      (fun (a b : ConsensusRanking) => decide (a.consensus_rank ≤ b.consensus_rank))
      (fun a b c hab hbc => by
        simp only [decide_eq_true_eq] at hab hbc ⊢
        exact le_trans hab hbc)
      (fun a b => by
        simp only [Bool.or_eq_true, decide_eq_true_eq]
        exact le_total _ _)
      group
    exact h.imp (fun hab => by simpa using hab)
  rw [List.pairwise_iff_getElem] at hs ⊢
  intro i j hi hj hij
  have hlen : (List.zipWith (fun c i => { c with position_rank := some (i : Int) })
      (sortByConsensus group) (List.range' 1 (sortByConsensus group).length)).length =
      (sortByConsensus group).length := by
    simp [List.length_zipWith]
  rw [List.getElem_zipWith, List.getElem_zipWith]
  exact hs i j (by omega) (by omega) hij

/-- Each record of the rank-annotated group carries position rank
`index + 1`. -/
theorem assign_position_ranks_rank (group : List ConsensusRanking) (m : Nat)
    (hm : m < (assign_position_ranks group).length) :
    ((assign_position_ranks group)[m]).position_rank =
      some ((1 + m : Nat) : Int) := by
  simp only [assign_position_ranks] at hm ⊢
  rw [List.getElem_zipWith]
  simp [List.getElem_range']

/-- C8: after `_assign_position_ranks` and `_assign_tiers` run over one
position group, any player with the smaller assigned position rank has a
tier less than or equal to that of any player with a larger (or equal)
position rank. -/
theorem tier_monotone_in_position_rank (sizes : List Int)
    (group : List ConsensusRanking) (a b : ConsensusRanking)
    (ha : a ∈ processPosition sizes group)
    (hb : b ∈ processPosition sizes group)
    (i j : Int) (hia : a.position_rank = some i) (hjb : b.position_rank = some j)
    (hij : i ≤ j) : a.tier ≤ b.tier := by
  have hsorted := assign_position_ranks_sorted group
  have hkey : processPosition sizes group =
      (assign_position_ranks group).zipWith (fun c t => { c with tier := t })
        (tierWalk sizes (assign_position_ranks group).length 1 0 0) := by
    rw [processPosition, assign_tiers,
      sortByConsensus_of_sorted (assign_position_ranks group) hsorted]
  rw [hkey] at ha hb
  rw [List.mem_iff_getElem] at ha hb
  obtain ⟨k, hk, hak⟩ := ha
  obtain ⟨k2, hk2, hbk⟩ := hb
  have htw : (tierWalk sizes (assign_position_ranks group).length 1 0 0).length =
      (assign_position_ranks group).length :=
    tierWalk_length sizes (assign_position_ranks group).length 1 0 0
  have hk3 : k < (assign_position_ranks group).length := by
    rw [List.length_zipWith, htw] at hk
    omega
  have hk4 : k2 < (assign_position_ranks group).length := by
    rw [List.length_zipWith, htw] at hk2
    omega
  rw [List.getElem_zipWith] at hak hbk
  have hra : a.position_rank = some ((1 + k : Nat) : Int) := by
    rw [← hak]
    exact assign_position_ranks_rank group k hk3
  have hrb : b.position_rank = some ((1 + k2 : Nat) : Int) := by
    rw [← hbk]
    exact assign_position_ranks_rank group k2 hk4
  have hieq : i = ((1 + k : Nat) : Int) :=
    Option.some.inj (hia.symm.trans hra)
  have hjeq : j = ((1 + k2 : Nat) : Int) :=
    Option.some.inj (hjb.symm.trans hrb)
  have hkk : k ≤ k2 := by
    rw [hieq, hjeq] at hij
    omega
  have hkw : k < (tierWalk sizes (assign_position_ranks group).length 1 0 0).length := by
    omega
  have hkw2 : k2 < (tierWalk sizes (assign_position_ranks group).length 1 0 0).length := by
    omega
  have hta : a.tier =
      (tierWalk sizes (assign_position_ranks group).length 1 0 0)[k] := by
    rw [← hak]
  have htb : b.tier =
      (tierWalk sizes (assign_position_ranks group).length 1 0 0)[k2] := by
    rw [← hbk]
  rw [hta, htb]
  rcases Nat.lt_or_ge k2 k with hgt | hge
  · omega
  · rcases Nat.eq_or_lt_of_le hkk with heq | hlt
    · subst heq
      exact le_refl _
    · have hpw := tierWalk_pairwise sizes (assign_position_ranks group).length 1 0 0
      rw [List.pairwise_iff_getElem] at hpw
      exact hpw k k2 (by omega) (by omega) hlt

/-- Five same-position records with distinct consensus ranks. -/
def demoTierGroup : List ConsensusRanking :=
  [demoCR "Ann" .RB 1 none, demoCR "Ben" .RB 2 none, demoCR "Cal" .RB 3 none,
   demoCR "Dee" .RB 4 none, demoCR "Eve" .RB 5 none]

/-- The fully evaluated tier assignment of the five-record group under tier
sizes `[2, 2]`: tiers 1, 1, 2, 2 and the overflow tier 3. -/
theorem processPosition_demo_eval :
    processPosition [2, 2] demoTierGroup =
      [{ demoCR "Ann" .RB 1 none with position_rank := some 1, tier := 1 },
       { demoCR "Ben" .RB 2 none with position_rank := some 2, tier := 1 },
       { demoCR "Cal" .RB 3 none with position_rank := some 3, tier := 2 },
       { demoCR "Dee" .RB 4 none with position_rank := some 4, tier := 2 },
       { demoCR "Eve" .RB 5 none with position_rank := some 5, tier := 3 }] := by
  simp +decide [processPosition, assign_tiers, assign_position_ranks,
    sortByConsensus, tierWalk, demoTierGroup, demoCR, demoPlayer,
    List.mergeSort, List.merge, List.range']

/-- C8 witness: in the evaluated demo group, the player at position rank 1
has a tier (1) at most the tier (3) of the player at position rank 5. -/
theorem tier_monotone_in_position_rank_witness :
    ((processPosition [2, 2] demoTierGroup).getD 0 default).tier ≤
      ((processPosition [2, 2] demoTierGroup).getD 4 default).tier :=
  tier_monotone_in_position_rank [2, 2] demoTierGroup _ _
    (by rw [processPosition_demo_eval]; simp [List.getD])
    (by rw [processPosition_demo_eval]; simp [List.getD])
    1 5
    (by rw [processPosition_demo_eval]; rfl)
    (by rw [processPosition_demo_eval]; rfl)
    (by norm_num)

/-! ## C10: the tier counter freezes once the configured sizes run out -/

/-- With the size index exhausted, the walk emits the current tier
forever. -/
theorem tierWalk_const (sizes : List Int) :
    ∀ (n : Nat) (ct pit : Int) (ti : Nat), sizes.length ≤ ti →
      tierWalk sizes n ct pit ti = List.replicate n ct := by
  intro n
  induction n with
  | zero => intro ct pit ti h; rfl
  | succ m ih =>
    intro ct pit ti h
    simp only [tierWalk]
    rw [if_neg (fun hcon => (by omega : ¬ ti < sizes.length) hcon.1)]
    rw [List.replicate_succ, ih ct (pit + 1) ti h]

/-- Walking with `pit` players already counted in a live tier of size `s`
emits `s - pit` copies of the current tier, then restarts at the next
tier. -/
theorem tierWalk_block (sizes : List Int) (ct : Int) (ti : Nat)
    (hti : ti < sizes.length) :
    ∀ (n : Nat) (pit : Int), 0 ≤ pit → pit < sizes.getD ti 0 →
      tierWalk sizes n ct pit ti =
        List.replicate (min (sizes.getD ti 0 - pit).toNat n) ct ++
          tierWalk sizes (n - (sizes.getD ti 0 - pit).toNat) (ct + 1) 0 (ti + 1) := by
  intro n
  induction n with
  | zero =>
    intro pit h0 hlt
    simp [tierWalk]
  | succ m ih =>
    intro pit h0 hlt
    by_cases hc : sizes.getD ti 0 ≤ pit + 1
    · simp only [tierWalk]
      rw [if_pos ⟨hti, hc⟩]
      have h1 : (sizes.getD ti 0 - pit).toNat = 1 := by omega
      rw [h1]
      have h2 : min 1 (m + 1) = 1 := by omega
      rw [h2]
      simp [List.replicate_succ]
    · simp only [tierWalk]
      rw [if_neg (fun hcon => hc hcon.2)]
      rw [ih (pit + 1) (by omega) (by omega)]
      have h2 : (sizes.getD ti 0 - pit).toNat =
          (sizes.getD ti 0 - (pit + 1)).toNat + 1 := by omega
      rw [h2]
      have h3 : min ((sizes.getD ti 0 - (pit + 1)).toNat + 1) (m + 1) =
          min ((sizes.getD ti 0 - (pit + 1)).toNat) m + 1 := by omega
      rw [h3, List.replicate_succ, List.cons_append]
      have h4 : m + 1 - ((sizes.getD ti 0 - (pit + 1)).toNat + 1) =
          m - (sizes.getD ti 0 - (pit + 1)).toNat := by omega
      rw [h4]

/-- Past the sum of the configured tier sizes, every walked tier equals the
frozen value `ct + number of configured sizes`. -/
theorem tierWalk_frozen (sizes : List Int) (hsz : ∀ s ∈ sizes, 1 ≤ s) :
    ∀ (d ti : Nat), sizes.length - ti = d → ti ≤ sizes.length →
      ∀ (n : Nat) (ct : Int) (i : Nat),
        ((sizes.drop ti).sum).toNat ≤ i → i < n →
        (tierWalk sizes n ct 0 ti).getD i 0 =
          ct + ((sizes.length - ti : Nat) : Int) := by
  intro d
  induction d with
  | zero =>
    intro ti hd hle n ct i hi hin
    have hti : ti = sizes.length := by omega
    rw [tierWalk_const sizes n ct 0 ti (by omega)]
    rw [List.getD_eq_getElem _ _ (by simpa using hin)]
    rw [List.getElem_replicate]
    rw [hti]
    simp
  | succ d2 ih =>
    intro ti hd hle n ct i hi hin
    have hti : ti < sizes.length := by omega
    have hs1 : 1 ≤ sizes.getD ti 0 := by
      apply hsz
      rw [List.getD_eq_getElem sizes 0 hti]
      exact List.getElem_mem hti
    rw [tierWalk_block sizes ct ti hti n 0 (le_refl 0) (by omega)]
    have hdrop : sizes.drop ti = sizes.getD ti 0 :: sizes.drop (ti + 1) := by
      rw [List.getD_eq_getElem sizes 0 hti]
      exact List.drop_eq_getElem_cons hti
    have hsum_nonneg : 0 ≤ (sizes.drop (ti + 1)).sum := by
      apply List.sum_nonneg
      intro x hx
      have := hsz x (List.mem_of_mem_drop hx)
      omega
    have hsum : ((sizes.drop ti).sum).toNat =
        (sizes.getD ti 0).toNat + ((sizes.drop (ti + 1)).sum).toNat := by
      rw [hdrop, List.sum_cons]
      omega
    have hK : (sizes.getD ti 0 - 0).toNat = (sizes.getD ti 0).toNat := by omega
    have hKn : (sizes.getD ti 0).toNat ≤ i := by omega
    have hmin : min (sizes.getD ti 0 - 0).toNat n = (sizes.getD ti 0).toNat := by
      omega
    rw [hmin, hK]
    rw [List.getD_eq_getElem?_getD]
    rw [List.getElem?_append_right (by simpa using hKn)]
    rw [← List.getD_eq_getElem?_getD]
    rw [List.length_replicate]
    have hrec := ih (ti + 1) (by omega) (by omega)
      (n - (sizes.getD ti 0 - 0).toNat) (ct + 1)
      (i - (sizes.getD ti 0).toNat) (by omega) (by omega)
    rw [hK] at hrec
    rw [hrec]
    have : sizes.length - ti = (sizes.length - (ti + 1)) + 1 := by omega
    rw [this]
    push_cast
    ring

/-- C10: with every configured tier size at least 1 (as in
`DEFAULT_TIER_SIZES`), every player whose 0-based sorted index is at least
the sum of the configured sizes receives the single frozen tier
`len(sizes) + 1`; the counter stops incrementing once the sizes are
exhausted. -/
theorem tiers_frozen_after_sizes (sizes : List Int)
    (group : List ConsensusRanking) (hsz : ∀ s ∈ sizes, 1 ≤ s) (i : Nat)
    (hge : (sizes.sum).toNat ≤ i) (hlt : i < (assign_tiers sizes group).length) :
    ((assign_tiers sizes group).getD i default).tier =
      (sizes.length : Int) + 1 := by
  rw [assign_tiers] at hlt ⊢
  have htw := tierWalk_length sizes (sortByConsensus group).length 1 0 0
  have hlen : ((sortByConsensus group).zipWith (fun c t => { c with tier := t })
      (tierWalk sizes (sortByConsensus group).length 1 0 0)).length =
      (sortByConsensus group).length := by
    simp [List.length_zipWith, htw]
  have hi2 : i < (sortByConsensus group).length := by omega
  rw [List.getD_eq_getElem _ _ (by omega)]
  rw [List.getElem_zipWith]
  have hfrozen := tierWalk_frozen sizes hsz sizes.length 0 (by omega) (by omega)
    (sortByConsensus group).length 1 i (by simpa using hge) hi2
  rw [List.getD_eq_getElem _ _ (by omega)] at hfrozen
  simp only
  rw [hfrozen]
  simp
  omega

/-- C10 witness: in the demo group (five players, sizes `[2, 2]`, sum 4),
the player at 0-based index 4 gets the frozen tier `2 + 1 = 3`. -/
theorem tiers_frozen_after_sizes_witness :
    ((assign_tiers [2, 2] (assign_position_ranks demoTierGroup)).getD 4
        default).tier = (([2, 2] : List Int).length : Int) + 1 :=
  tiers_frozen_after_sizes [2, 2] (assign_position_ranks demoTierGroup)
    (by decide) 4 (by decide)
    (by
      rw [show assign_tiers [2, 2] (assign_position_ranks demoTierGroup) =
          processPosition [2, 2] demoTierGroup from rfl]
      rw [processPosition_demo_eval]
      decide)
